import Mathlib

/-!
Verification development for the ai-task-processor worker.

The definitions below are shallow embeddings of the Python sources:

* `src/ai_task_processor/services/rate_limiter.py` (multi-tier rate limiter),
* `src/ai_task_processor/scheduler.py` (poll/dispatch loop),
* `src/ai_task_processor/utils/retry.py` and
  `src/ai_task_processor/services/api_client.py` (retry envelope and circuit
  breaker),
* `src/ai_task_processor/services/embedding_providers.py` (cloud embedding
  provider mock path),
* `src/ai_task_processor/services/defining_services.py` (severity parsing),
* `src/ai_task_processor/utils/shutdown.py` (shutdown coordinator),
* `src/ai_task_processor/services/wikidata_client.py` (knowledge-graph
  batch enrichment).

Machine integers of the source are modelled as `Nat`/`Int`; wall-clock
timestamps (Python `datetime` / `time.time()`) are modelled as `Int` seconds.
SQLite rows are modelled as Lean lists; Python dicts as association lists;
Python sets as `Finset`/deduplicated lists where only cardinality and
membership are observable.
-/

namespace ATP
/-! ## Rate limiter (services/rate_limiter.py) -/

/-- The five tiers of `RateLimitPeriod`. -/
inductive RateLimitPeriod
  | minute
  | hour
  | day
  | week
  | month
deriving DecidableEq, Repr

/-- Iteration order of `self.limits` (a Python dict keyed in insertion
order: minute, hour, day, week, month). -/
def rateLimitPeriods : List RateLimitPeriod :=
  [.minute, .hour, .day, .week, .month]

/-- The `period_seconds` table of the constructor. -/
def periodSeconds : RateLimitPeriod → Nat
  | .minute => 60
  | .hour => 3600
  | .day => 86400
  | .week => 604800
  | .month => 2592000

/-- Result of `check_all_limits`: `RateLimitResult.allowed` together with the
`period_exceeded` field when denied. -/
inductive RateLimitDecision
  | allowed
  | denied (period : RateLimitPeriod)
deriving DecidableEq, Repr

/-- The `for period, limit in self.limits.items()` loop of
`check_all_limits`: a tier with `limit <= 0` is skipped as disabled, the
first enabled tier with `usage + task_count > limit` produces the denial,
otherwise the scan continues. -/
def checkLimitsGo (limits : RateLimitPeriod → Int) (usage : RateLimitPeriod → Nat)
    (taskCount : Nat) : List RateLimitPeriod → RateLimitDecision
  | [] => .allowed
  | p :: ps =>
    if limits p ≤ 0 then checkLimitsGo limits usage taskCount ps
    else if (usage p : Int) + taskCount > limits p then .denied p
    else checkLimitsGo limits usage taskCount ps

/-- `RateLimiter.check_all_limits(task_count)`.  `enabled` is
`settings.rate_limit_enabled`; `limits` the configured per-tier limits;
`usage` the per-tier current usage as read by the in-memory or database
getters at the time of the call. -/
def checkAllLimits (enabled : Bool) (limits : RateLimitPeriod → Int)
    (usage : RateLimitPeriod → Nat) (taskCount : Nat) : RateLimitDecision :=
  if enabled = false then .allowed
  else checkLimitsGo limits usage taskCount rateLimitPeriods

/-! ### Rolling-strategy usage (day/week/month tiers)

`_get_current_usage_database` under `RateLimitStrategy.ROLLING` runs

  SELECT COUNT(*) FROM task_completions
  WHERE completed_at >= ? AND completed_at <= ?

with parameters `window_start = now - period_seconds[period]` and `now`.
Timestamps are stored and compared as UTC ISO strings, whose lexicographic
order agrees with chronological order; we model them as `Int` seconds. -/

/-- Rolling usage for a database tier: the number of completion records whose
timestamp lies in the closed interval `[now - T, now]`. -/
def usageRollingDatabase (completions : List Int) (period : RateLimitPeriod)
    (now : Int) : Nat :=
  (completions.filter
    (fun t => decide (now - (periodSeconds period : Int) ≤ t) && decide (t ≤ now))).length

/-- The per-tier usage function of `check_all_limits` under the rolling
strategy: minute and hour come from the in-memory counters, the database
tiers from `task_completions` records. -/
def rollingUsage (memMinute memHour : Nat) (completions : List Int) (now : Int) :
    RateLimitPeriod → Nat
  | .minute => memMinute
  | .hour => memHour
  | p => usageRollingDatabase completions p now

/-- `check_all_limits` under the rolling strategy with the database tiers
computed from the completion log. -/
def checkAllLimitsRolling (enabled : Bool) (limits : RateLimitPeriod → Int)
    (memMinute memHour : Nat) (completions : List Int) (now : Int)
    (taskCount : Nat) : RateLimitDecision :=
  checkAllLimits enabled limits (rollingUsage memMinute memHour completions now) taskCount

/-! ## Scheduler batch crediting (scheduler.py)

`_poll_and_process_tasks` gathers the per-task workers with
`return_exceptions=True` and computes

  successful_count = sum(1 for result in results
                         if not isinstance(result, Exception))

`_process_single_task` returns `None` on every path: a missing processor
produces a failed `TaskResult`, `execute_with_error_handling`
(base_processor.py) converts any exception raised by `process` into a failed
`TaskResult`, and `update_task_status` catches its own errors.  A gather slot
holds an exception only when the coroutine itself raised (e.g. cancellation),
which is outside this model. -/

/-- The `TaskStatus` enum of models/task.py. -/
inductive TaskStatus
  | pending
  | inProgress
  | succeeded
  | failed
deriving DecidableEq, Repr

/-- The fields of `Task` consulted by the scheduler path. -/
structure Task where
  id : String
  type : String
deriving DecidableEq, Repr

/-- The `TaskResult` model: `output_data` is an opaque payload. -/
structure TaskResult where
  taskId : String
  status : TaskStatus
  outputData : Option String := none
  errorMessage : Option String := none
deriving DecidableEq, Repr

/-- One per-task worker of a tick, with the environment it runs against:
whether `processor_factory.get_processor` finds a processor, what
`processor.process` does (returns a result or raises with a message), and
whether the PATCH to the control plane succeeds. -/
structure WorkerRun where
  task : Task
  processorName : String
  hasProcessor : Bool
  processOutcome : Except String TaskResult
  updateOk : Bool

/-- `BaseProcessor.execute_with_error_handling`: a raising `process` is
caught and converted into a failed `TaskResult`. -/
def executeWithErrorHandling (processorName : String) (task : Task)
    (outcome : Except String TaskResult) : TaskResult :=
  match outcome with
  | .ok r => r
  | .error e =>
    { taskId := task.id, status := .failed,
      errorMessage := some (processorName ++ " error: " ++ e) }

/-- The failed result built by `_process_single_task` when no processor is
available for the task type. -/
def noProcessorResult (task : Task) : TaskResult :=
  { taskId := task.id, status := .failed,
    errorMessage := some ("No processor available for task type: " ++ task.type) }

/-- A Python exception value as seen in a gather slot. -/
inductive PyExn
  | requestError
  | httpStatusError
  | retryableError
  | nonRetryableError
  | otherError (msg : String)
deriving DecidableEq, Repr

/-- `_process_single_task(task, api_client)`: computes the task's
`TaskResult`, posts the status update, and falls off the end — the coroutine
returns `None` (`Except.ok ()`); no failure path raises. -/
def processSingleTask (w : WorkerRun) : Except PyExn Unit × TaskResult :=
  let result :=
    if w.hasProcessor then executeWithErrorHandling w.processorName w.task w.processOutcome
    else noProcessorResult w.task
  (Except.ok (), result)

/-- The scheduler's `successful_count`: gather slots that are not
exceptions. -/
def successfulCount (results : List (Except PyExn Unit)) : Nat :=
  results.countP (fun r => match r with | .ok _ => true | .error _ => false)

/-- One tick batch: run every launched worker, return the credit passed to
`record_completed_tasks` together with the workers' task results. -/
def runTickBatch (workers : List WorkerRun) : Nat × List TaskResult :=
  let outs := workers.map processSingleTask
  (successfulCount (outs.map Prod.fst), outs.map Prod.snd)

/-- The count the claim says should be credited: task results whose status is
`succeeded`. -/
def succeededResultCount (results : List TaskResult) : Nat :=
  results.countP (fun r => decide (r.status = .succeeded))

/-- A worker whose `process` raises: `execute_with_error_handling` converts
the exception into a failed `TaskResult` and the coroutine returns
normally. -/
def failingWorker : WorkerRun :=
  { task := { id := "t1", type := "text_embedding" },
    processorName := "TextEmbeddingProcessor",
    hasProcessor := true,
    processOutcome := .error "boom",
    updateOk := true }

/-! ## Retry envelope (utils/retry.py) and the control-plane request path
(services/api_client.py)

`exponential_backoff_retry` loops `for attempt in range(max_retries + 1)`.
An exception matching `non_retryable_exceptions` is re-raised at once; one
matching `retryable_exceptions` is retried unless `attempt == max_retries`;
an exception matching neither tuple escapes the `try` and propagates
immediately.  Sleep durations and jitter have no effect on control flow and
are not modelled.

`APIClient._make_request` is decorated with
`retry(retryable_exceptions=(httpx.RequestError, httpx.HTTPStatusError),
non_retryable_exceptions=(NonRetryableError,))` and its inner `request`
raises `RetryableError` on a 5xx status and `NonRetryableError` on other
4xx/5xx-free error statuses.  The circuit breaker in its closed, untripped
state re-raises the same exception unchanged (see `CircuitBreaker.call`
below), so the exception seen by the retry loop is the one raised by
`request`. -/

/-- The per-exception-class membership of the `isinstance` checks: the
tuples passed to the decorator in api_client.py.  `RetryableError` and
`NonRetryableError` are direct subclasses of `Exception` and are instances
of neither `httpx.RequestError` nor `httpx.HTTPStatusError`. -/
def retryableTuple : List PyExn := [.requestError, .httpStatusError]

/-- The `non_retryable_exceptions` tuple of the decorator. -/
def nonRetryableTuple : List PyExn := [.nonRetryableError]

/-- One pass of `exponential_backoff_retry` starting at attempt index `k`:
returns the surfaced outcome together with the number of attempts made.
`attempts k` is the outcome of the `k`-th call of the wrapped function.  The
loop invariant `k ≤ max_retries` of `range(max_retries + 1)` turns the
Python guard `attempt == max_retries` into `¬ k < maxRetries`. -/
def backoffRetryFrom (attempts : Nat → Except PyExn Unit) (maxRetries : Nat)
    (k : Nat) : Except PyExn Unit × Nat :=
  match attempts k with
  | .ok v => (.ok v, k + 1)
  | .error e =>
    if e ∈ nonRetryableTuple then (.error e, k + 1)
    else if e ∈ retryableTuple then
      if h : k < maxRetries then backoffRetryFrom attempts maxRetries (k + 1)
      else (.error e, k + 1)
    else (.error e, k + 1)
termination_by maxRetries - k
decreasing_by omega

/-- `exponential_backoff_retry(func, max_retries, ...)` with the
api_client.py tuples, reporting the surfaced outcome and how many attempts
were made. -/
def exponentialBackoffRetry (attempts : Nat → Except PyExn Unit)
    (maxRetries : Nat) : Except PyExn Unit × Nat :=
  backoffRetryFrom attempts maxRetries 0

/-- The inner `request()` of `_make_request`: a 5xx status raises
`RetryableError`, any other status of 400 or above raises
`NonRetryableError`, anything else returns the response. -/
def requestAttemptOutcome (status : Nat) : Except PyExn Unit :=
  if 500 ≤ status then .error .retryableError
  else if 400 ≤ status then .error .nonRetryableError
  else .ok ()

/-- `_make_request` as seen by the retry decorator: `statuses k` is the HTTP
status code of the `k`-th attempt's response. -/
def makeRequestRetries (statuses : Nat → Nat) (maxRetries : Nat) :
    Except PyExn Unit × Nat :=
  exponentialBackoffRetry (fun k => requestAttemptOutcome (statuses k)) maxRetries

/-! ## Circuit breaker (services/api_client.py)

`CircuitBreaker.call(func)` first handles the open state: when
`time.time() - last_failure_time > recovery_timeout` the state becomes
`half-open` and the call proceeds, otherwise `NonRetryableError("Circuit
breaker is open")` is raised without touching the upstream.  Then `func` is
awaited: success resets the breaker when the state is half-open; any
exception goes through `record_failure` (increment, stamp the time, open
when the count reaches the threshold) and is re-raised.  `time.time()` is
modelled as `Int` seconds; both the call instant and the failure stamp use
the same instant, as the source does within one call. -/

/-- The three `self.state` strings. -/
inductive CBState
  | closed
  | opened
  | halfOpen
deriving DecidableEq, Repr

/-- The mutable fields of the `CircuitBreaker` object. -/
structure CircuitBreaker where
  failureThreshold : Nat
  recoveryTimeout : Int
  failureCount : Nat
  lastFailureTime : Option Int
  state : CBState
deriving DecidableEq, Repr

/-- `CircuitBreaker.__init__(failure_threshold, recovery_timeout)`. -/
def CircuitBreaker.mkInit (threshold : Nat) (timeout : Int) : CircuitBreaker :=
  { failureThreshold := threshold, recoveryTimeout := timeout,
    failureCount := 0, lastFailureTime := none, state := .closed }

/-- The constructor defaults `failure_threshold=5, recovery_timeout=60`. -/
def CircuitBreaker.initDefault : CircuitBreaker := CircuitBreaker.mkInit 5 60

/-- `CircuitBreaker.record_failure`. -/
def CircuitBreaker.recordFailure (cb : CircuitBreaker) (now : Int) : CircuitBreaker :=
  { cb with
    failureCount := cb.failureCount + 1,
    lastFailureTime := some now,
    state := if cb.failureThreshold ≤ cb.failureCount + 1 then .opened else cb.state }

/-- `CircuitBreaker.reset`. -/
def CircuitBreaker.reset (cb : CircuitBreaker) : CircuitBreaker :=
  { cb with failureCount := 0, lastFailureTime := none, state := .closed }

/-- Observable outcome of one `call`: the wrapped result, the raised
`NonRetryableError` of the open fast-fail path, or the re-raised upstream
exception. -/
inductive CBCallResult
  | ok
  | circuitOpenFatal
  | upstreamFailure
deriving DecidableEq, Repr

/-- What one `call` produced: its result, the breaker state afterwards, and
whether the upstream function was invoked at all. -/
structure CBCallOutcome where
  result : CBCallResult
  breaker : CircuitBreaker
  reachedUpstream : Bool
deriving DecidableEq, Repr

/-- `CircuitBreaker.call(func)` at instant `now`, where `upstreamOk` tells
whether `func` returns normally or raises.  In the source
`last_failure_time` is never `None` while the state is open (proved below as
an invariant); `getD 0` stands for that dereference. -/
def CircuitBreaker.call (cb : CircuitBreaker) (now : Int) (upstreamOk : Bool) :
    CBCallOutcome :=
  if cb.state = .opened then
    if cb.recoveryTimeout < now - (cb.lastFailureTime.getD 0) then
      let cbHalf := { cb with state := CBState.halfOpen }
      if upstreamOk then
        { result := .ok, breaker := cbHalf.reset, reachedUpstream := true }
      else
        { result := .upstreamFailure, breaker := cbHalf.recordFailure now,
          reachedUpstream := true }
    else
      { result := .circuitOpenFatal, breaker := cb, reachedUpstream := false }
  else
    if upstreamOk then
      { result := .ok,
        breaker := if cb.state = .halfOpen then cb.reset else cb,
        reachedUpstream := true }
    else
      { result := .upstreamFailure, breaker := cb.recordFailure now,
        reachedUpstream := true }

/-- Breaker states reachable from a freshly constructed instance through
sequences of calls. -/
inductive CBReachable : CircuitBreaker → Prop
  | init (threshold : Nat) (timeout : Int) :
      CBReachable (CircuitBreaker.mkInit threshold timeout)
  | step (cb : CircuitBreaker) (now : Int) (upstreamOk : Bool) :
      CBReachable cb → CBReachable ((cb.call now upstreamOk).breaker)

/-- Invariant of reachable breakers: away from the closed state the failure
count has reached the threshold and a failure time is recorded. -/
def CBInv (cb : CircuitBreaker) : Prop :=
  cb.state ≠ .closed →
    cb.failureThreshold ≤ cb.failureCount ∧ ∃ t, cb.lastFailureTime = some t

/-! ## Python string primitives shared by several components -/

/-- The characters removed by Python `str.strip()` and split on by
`str.split()` for ASCII text. -/
def pyWhitespaceChar (c : Char) : Bool :=
  c = ' ' || c = '\t' || c = '\n' || c = '\r' || c = '\x0b' || c = '\x0c'

/-- Python substring containment `needle in hay` on character lists. -/
def listContainsSub (needle : List Char) : List Char → Bool
  | [] => needle.isEmpty
  | c :: rest => needle.isPrefixOf (c :: rest) || listContainsSub needle rest

/-- Python `needle in hay` on strings. -/
def strContainsSub (hay needle : String) : Bool :=
  listContainsSub needle.toList hay.toList

/-- Count of `len(text.split())`: `str.split()` with no argument splits on
runs of whitespace and discards empty strings, so the count is the number of
maximal non-whitespace runs.  `inWord` records whether the previous
character was part of a word. -/
def wordCountAux (inWord : Bool) : List Char → Nat
  | [] => 0
  | c :: rest =>
    if pyWhitespaceChar c then wordCountAux false rest
    else (if inWord then 0 else 1) + wordCountAux true rest

/-- The number of whitespace-separated words of a text. -/
def wordCount (s : List Char) : Nat := wordCountAux false s

/-! ## Cloud embedding provider (services/embedding_providers.py)

`OpenAIEmbeddingProvider.create_embedding` rejects unsupported models with
`NonRetryableError`; when `settings.openai_api_key` equals the placeholder
string it synthesizes a mock result whose embedding has
`1536 if "3-small" in model else 3072 if "3-large" in model else 1536`
random components and whose usage counts are `len(text.split())`; otherwise
it forwards to `openai_client.create_embedding` (which requests
`dimensions=1024` from the real API).  `settings.openai_api_key` is a
required string field, so an absent key is the empty string at best — only
exact equality with the placeholder selects the mock. -/

/-- `OpenAIEmbeddingProvider.SUPPORTED_MODELS`. -/
def supportedCloudEmbeddingModels : List String :=
  ["text-embedding-3-small", "text-embedding-3-large", "text-embedding-ada-002"]

/-- The placeholder compared against the configured API key. -/
def placeholderApiKey : String := "your_openai_api_key_here"

/-- The mock embedding dimension choice of the provider. -/
def mockEmbeddingDims (model : String) : Nat :=
  if strContainsSub model "3-small" then 1536
  else if strContainsSub model "3-large" then 3072
  else 1536

/-- Observable behaviour of one `create_embedding` call: the fatal
unsupported-model error, a synthesized mock result (its embedding length and
usage counts; the float components are random and not modelled), or a
forward to the real cloud client. -/
inductive EmbeddingCall
  | unsupportedModelFatal
  | mockResult (embeddingLen promptTokens totalTokens : Nat)
  | forwardToCloudApi
deriving DecidableEq, Repr

/-- `OpenAIEmbeddingProvider.create_embedding(text, model)` under the
configured API key. -/
def openAICreateEmbedding (apiKey model : String) (text : List Char) : EmbeddingCall :=
  if ¬ model ∈ supportedCloudEmbeddingModels then .unsupportedModelFatal
  else if apiKey = placeholderApiKey then
    .mockResult (mockEmbeddingDims model) (wordCount text) (wordCount text)
  else .forwardToCloudApi

/-! ## Severity classification (services/defining_services.py)

`_classify_severity_with_ai` lower-cases and strips the model response, then
scans the `valid_severities` list in order and returns the first member
contained in the response text as a substring, falling back to
`"medium_2"`. -/

/-- The `valid_severities` list, in its scan order. -/
def validSeverities : List String :=
  ["critical", "high_3", "high_2", "high_1", "medium_3", "medium_2",
   "medium_1", "low_3", "low_2", "low_1"]

/-- Python `str.lower()` for the ASCII texts involved here. -/
def pyLower (s : List Char) : List Char := s.map Char.toLower

/-- Python `str.strip()`: drop leading and trailing whitespace. -/
def pyStrip (s : List Char) : List Char :=
  ((s.dropWhile pyWhitespaceChar).reverse.dropWhile pyWhitespaceChar).reverse

/-- The `for severity in valid_severities: if severity in severity_text`
scan, with its `"medium_2"` fallback. -/
def classifySeverityScan (severityText : List Char) : List String → String
  | [] => "medium_2"
  | sev :: rest =>
    if listContainsSub sev.toList severityText then sev
    else classifySeverityScan severityText rest

/-- `_classify_severity_with_ai` applied to the raw response text
(`response["choices"][0]["text"]`): `severity_text = text.strip().lower()`
followed by the scan. -/
def classifySeverity (responseText : List Char) : String :=
  classifySeverityScan (pyLower (pyStrip responseText)) validSeverities

/-! ## Shutdown coordinator (utils/shutdown.py)

`GracefulShutdown` keeps `self._cleanup_callbacks: Set[Callable]` — a Python
`set`, whose iteration order is a function of the stored elements (hash
table layout), not of insertion history.  `add_cleanup_callback` does
`self._cleanup_callbacks.add(callback)` and `shutdown` iterates
`for callback in self._cleanup_callbacks`.  Callbacks are modelled by
opaque identities (`Nat`); only the set structure matters. -/

/-- The coordinator state observable by `shutdown`: the stored callback
set. -/
structure ShutdownState where
  cleanupCallbacks : Finset Nat
deriving DecidableEq

/-- `GracefulShutdown.__init__`: empty callback set. -/
def initialShutdownState : ShutdownState := ⟨∅⟩

/-- `add_cleanup_callback(callback)`. -/
def addCleanupCallback (s : ShutdownState) (callback : Nat) : ShutdownState :=
  ⟨insert callback s.cleanupCallbacks⟩

/-! ## Knowledge-graph client (services/wikidata_client.py)

Entities returned by `wbgetentities` carry `claims` (property id to a list
of statements, each contributing `mainsnak.datavalue.value["id"]` when that
value is a dict with an `id`), `labels` and `descriptions` (language to the
`value` string).  Python dicts are modelled as association lists; the
upstream service is modelled as a function `fetched` from entity id to the
entity it returns, if any. -/

/-- One claim/statement of an entity: its extractable item id, when the
`mainsnak.datavalue.value` is a dict containing `"id"`. -/
structure WdStatement where
  valueId : Option String
deriving DecidableEq, Repr

/-- An entity as returned by the batch fetch with
`props=claims|labels|descriptions`. -/
structure WdEntity where
  claims : List (String × List WdStatement)
  labels : List (String × String)
  descriptions : List (String × String)
deriving DecidableEq, Repr

/-- Python `dict.get(k)` over an association list. -/
def alistGet (m : List (String × β)) (k : String) : Option β :=
  match m with
  | [] => none
  | kv :: rest => if kv.1 = k then some kv.2 else alistGet rest k

/-- `WikidataClient._extract_item_ids(claims, property_id, limit=5)`: walk
the first `limit` claims of the property and collect their item ids. -/
def extractItemIds (claims : List (String × List WdStatement))
    (propertyId : String) (limit : Nat) : List String :=
  match alistGet claims propertyId with
  | none => []
  | some cs => (cs.take limit).filterMap (fun st => st.valueId)

/-- `WikidataClient.ALLOWED_INSTANCE_TYPES` (a Python set; only membership
is observed). -/
def allowedInstanceTypes : List String := ["Q5", "Q891723", "Q1153191"]

/-- The in-memory instance-type filter of `batch_enrich_personalities`:
`instance_types = self._extract_item_ids(claims, "P31")` (default limit 5)
followed by `any(instance_id in self.ALLOWED_INSTANCE_TYPES ...)`. -/
def hasAllowedInstanceType (e : WdEntity) : Bool :=
  (extractItemIds e.claims "P31" 5).any (fun i => allowedInstanceTypes.contains i)

/-- The filter as the specification words it — "the first candidate whose
P31 instance-of value lies in {Q5, Q891723, Q1153191}" — with no limit on
how many P31 claims are examined.  Stated for comparison with
`hasAllowedInstanceType`. -/
def hasAllowedInstanceTypeSpec (e : WdEntity) : Bool :=
  match alistGet e.claims "P31" with
  | none => false
  | some cs => (cs.filterMap (fun st => st.valueId)).any
      (fun i => allowedInstanceTypes.contains i)

/-- `WikidataClient.get_entities_batch(entity_ids)`: lists longer than 50
are truncated to their first 50 ids (with a warning, not an error); the
response maps each requested id that the upstream knows to its entity. -/
def getEntitiesBatch (fetched : String → Option WdEntity)
    (entityIds : List String) : List (String × WdEntity) :=
  (entityIds.take 50).filterMap (fun i => (fetched i).map (fun e => (i, e)))

/-! ### Batch personality enrichment (`batch_enrich_personalities`)

Per personality, one `search_person` task is launched; a failed or empty
search contributes an empty candidate list, otherwise the candidates are the
truthy `id` fields of the hits in search order.  All candidate ids are
pooled into a Python set, fetched in chunks of 50 through
`get_entities_batch`, merged into one dict, and each personality is
annotated with its first candidate whose fetched entity passes the
instance-type filter, or `None`.

The set of unique ids is modelled by `dedup` of the concatenated candidate
lists: the chunk count and the merged dict depend only on the set's
cardinality and membership, not on its iteration order.  `enumerate` over
the personality list is modelled by zipping with `List.range`. -/

/-- One search hit: its `id` field, when present. -/
structure WdSearchHit where
  id : Option String
deriving DecidableEq, Repr

/-- A personality mention as consumed by the batch pipeline (`p["name"]`;
the remaining fields are copied through unchanged and not observed). -/
structure PersonalityIn where
  name : String
deriving DecidableEq, Repr

/-- The `matched_entity` dict built for an annotated personality. -/
structure WdMatchedEntity where
  id : String
  url : String
  label : String
  description : Option String
  aliases : List String
deriving DecidableEq, Repr

/-- Construction of `matched_entity` from the fetched entity:
`labels.get(language, {}).get("value", personality.get("name"))` and the
analogous description lookup. -/
def buildMatchedEntity (entityId : String) (e : WdEntity)
    (personName lang : String) : WdMatchedEntity :=
  { id := entityId,
    url := "https://www.wikidata.org/wiki/" ++ entityId,
    label := (alistGet e.labels lang).getD personName,
    description := alistGet e.descriptions lang,
    aliases := [] }

/-- `[r.get("id") for r in search_result if r.get("id")]`: truthiness
discards both missing and empty ids. -/
def candidateIds (hits : List WdSearchHit) : List String :=
  hits.filterMap (fun r =>
    match r.id with
    | some s => if s = "" then none else some s
    | none => none)

/-- The candidate ids recorded for one personality from its gather slot: an
exception or an empty result yields `[]`. -/
def searchEntityIds (outcome : Except Unit (List WdSearchHit)) : List String :=
  match outcome with
  | .error _ => []
  | .ok hits => candidateIds hits

/-- The pooled set `all_entity_ids` as a duplicate-free list. -/
def uniqueEntityIds (searches : List (Except Unit (List WdSearchHit))) : List String :=
  ((searches.map searchEntityIds).flatten).dedup

/-- The `range(0, len(entity_ids_list), 50)` chunking. -/
def chunksOf50 : List String → List (List String)
  | [] => []
  | x :: xs => ((x :: xs).take 50) :: chunksOf50 ((x :: xs).drop 50)
termination_by l => l.length
decreasing_by simp [List.length_drop]; omega

/-- The merged `entities_data` dict: each chunk fetched through
`get_entities_batch` and accumulated with `dict.update` (disjoint keys, so
concatenation). -/
def fetchedEntitiesData (fetched : String → Option WdEntity)
    (searches : List (Except Unit (List WdSearchHit))) : List (String × WdEntity) :=
  (chunksOf50 (uniqueEntityIds searches)).foldl
    (fun acc batch => acc ++ getEntitiesBatch fetched batch) []

/-- The per-personality matching loop: walk the candidate ids in search
order, skip ids absent from `entities_data`, and return the first entity
passing the instance-type filter. -/
def selectFirstAllowed (entities : String → Option WdEntity)
    (personName lang : String) : List String → Option WdMatchedEntity
  | [] => none
  | eid :: rest =>
    match entities eid with
    | none => selectFirstAllowed entities personName lang rest
    | some e =>
      if hasAllowedInstanceType e then some (buildMatchedEntity eid e personName lang)
      else selectFirstAllowed entities personName lang rest

/-- `WikidataClient.batch_enrich_personalities(personalities, language)`:
`searchF i` is the gather outcome of the search task launched for the
`i`-th personality; `fetched` is the upstream entity store behind
`get_entities_batch`. -/
def batchEnrichPersonalities (fetched : String → Option WdEntity)
    (searchF : Nat → Except Unit (List WdSearchHit)) (ps : List PersonalityIn)
    (lang : String) : List (PersonalityIn × Option WdMatchedEntity) :=
  let searches := (List.range ps.length).map searchF
  let entitiesData := fetchedEntitiesData fetched searches
  ((List.range ps.length).zip ps).map (fun ip =>
    (ip.2, selectFirstAllowed (fun eid => alistGet entitiesData eid) ip.2.name lang
      (searchEntityIds (searchF ip.1))))

/-- The number of `get_entities_batch` calls issued by the pipeline. -/
def batchEnrichFetchCallCount (searchF : Nat → Except Unit (List WdSearchHit))
    (ps : List PersonalityIn) : Nat :=
  (chunksOf50 (uniqueEntityIds ((List.range ps.length).map searchF))).length

/-- The entity of the C6 counterexample: six P31 statements, of which only
the sixth is an allowed type (Q5, human). -/
def c6Entity : WdEntity :=
  { claims := [("P31",
      [{ valueId := some "Q2" }, { valueId := some "Q2" }, { valueId := some "Q2" },
       { valueId := some "Q2" }, { valueId := some "Q2" }, { valueId := some "Q5" }])],
    labels := [("en", "Alice Example")],
    descriptions := [] }

/-- The upstream entity store of the C6 counterexample. -/
def c6Fetched : String → Option WdEntity :=
  fun s => if s = "Q1" then some c6Entity else none

/-- The search outcomes of the C6 counterexample: every search returns the
single candidate Q1. -/
def c6SearchF : Nat → Except Unit (List WdSearchHit) :=
  fun _ => .ok [{ id := some "Q1" }]

/-! ## Theorems -/

lemma mem_rateLimitPeriods (p : RateLimitPeriod) : p ∈ rateLimitPeriods := by
  cases p <;> simp [rateLimitPeriods]

lemma checkLimitsGo_eq_allowed_iff (limits : RateLimitPeriod → Int)
    (usage : RateLimitPeriod → Nat) (n : Nat) (l : List RateLimitPeriod) :
    checkLimitsGo limits usage n l = .allowed ↔
      ∀ p ∈ l, 0 < limits p → (usage p : Int) + n ≤ limits p := by
  induction l with
  | nil => simp [checkLimitsGo]
  | cons p ps ih =>
    by_cases hdis : limits p ≤ 0
    · simp only [checkLimitsGo, if_pos hdis, ih, List.mem_cons]
      constructor
      · intro h q hq hql
        rcases hq with rfl | hq
        · omega
        · exact h q hq hql
      · intro h q hq hql
        exact h q (Or.inr hq) hql
    · by_cases hover : (usage p : Int) + n > limits p
      · simp only [checkLimitsGo, if_neg hdis, if_pos hover]
        constructor
        · intro h; cases h
        · intro h
          have := h p (List.mem_cons_self p ps) (by omega)
          omega
      · simp only [checkLimitsGo, if_neg hdis, if_neg hover, ih, List.mem_cons]
        constructor
        · intro h q hq hql
          rcases hq with rfl | hq
          · omega
          · exact h q hq hql
        · intro h q hq hql
          exact h q (Or.inr hq) hql

lemma checkLimitsGo_denied_pos (limits : RateLimitPeriod → Int)
    (usage : RateLimitPeriod → Nat) (n : Nat) (l : List RateLimitPeriod)
    (p : RateLimitPeriod) (h : checkLimitsGo limits usage n l = .denied p) :
    0 < limits p := by
  induction l with
  | nil => simp [checkLimitsGo] at h
  | cons q qs ih =>
    by_cases hdis : limits q ≤ 0
    · rw [checkLimitsGo, if_pos hdis] at h
      exact ih h
    · by_cases hover : (usage q : Int) + n > limits q
      · rw [checkLimitsGo, if_neg hdis, if_pos hover] at h
        cases h
        omega
      · rw [checkLimitsGo, if_neg hdis, if_neg hover] at h
        exact ih h

/-- C2: with rate limiting enabled, `check_all_limits(n)` answers `Allowed`
iff every tier with a positive configured limit satisfies
`usage + n ≤ limit`; and a tier configured with limit `0` is disabled and can
never be the tier reported in a denial. -/
theorem checkAllLimits_allowed_iff (enabled : Bool)
    (limits : RateLimitPeriod → Int) (usage : RateLimitPeriod → Nat) (n : Nat)
    (hen : enabled = true) :
    (checkAllLimits enabled limits usage n = .allowed ↔
      ∀ p, 0 < limits p → (usage p : Int) + n ≤ limits p) ∧
    ∀ p, limits p = 0 → checkAllLimits enabled limits usage n ≠ .denied p := by
  subst hen
  constructor
  · rw [checkAllLimits, if_neg (by simp), checkLimitsGo_eq_allowed_iff]
    constructor
    · intro h p hp
      exact h p (mem_rateLimitPeriods p) hp
    · intro h p _ hp
      exact h p hp
  · intro p hp hden
    rw [checkAllLimits, if_neg (by simp)] at hden
    have := checkLimitsGo_denied_pos limits usage n rateLimitPeriods p hden
    omega

/-- Witness for C2 at a concrete configuration: every tier limited to 5 with
current usage 2 admits a batch of 1. -/
theorem checkAllLimits_allowed_iff_witness :
    checkAllLimits true (fun _ => 5) (fun _ => 2) 1 = .allowed := by
  have h := checkAllLimits_allowed_iff true (fun _ => 5) (fun _ => 2) 1 rfl
  exact h.1.mpr (fun p _ => by norm_num)

/-- C7 (amended): under the rolling strategy, a completion recorded at `t`
contributes exactly one unit to a database tier's usage at every instant
`now ∈ [t, t + T]` — the interval is closed on the right — and contributes
nothing for `now > t + T` or `now < t`. -/
theorem usageRollingDatabase_visibility (t now : Int) (period : RateLimitPeriod)
    (pre post : List Int) :
    usageRollingDatabase (pre ++ t :: post) period now =
      usageRollingDatabase (pre ++ post) period now +
        (if t ≤ now ∧ now ≤ t + (periodSeconds period : Int) then 1 else 0) := by
  unfold usageRollingDatabase
  rw [List.filter_append, List.filter_append, List.filter_cons]
  by_cases h : t ≤ now ∧ now ≤ t + (periodSeconds period : Int)
  · have hc : (decide (now - (periodSeconds period : Int) ≤ t) &&
        decide (t ≤ now)) = true := by
      simp only [Bool.and_eq_true, decide_eq_true_eq]
      omega
    rw [hc, if_pos h]
    simp [List.length_append]
    omega
  · have hc : (decide (now - (periodSeconds period : Int) ≤ t) &&
        decide (t ≤ now)) = false := by
      cases hd1 : decide (now - (periodSeconds period : Int) ≤ t) with
      | false => simp
      | true =>
        cases hd2 : decide (t ≤ now) with
        | false => simp
        | true =>
          exfalso
          rw [decide_eq_true_eq] at hd1 hd2
          omega
    rw [hc, if_neg h]
    simp [List.length_append]

/-- C7 counterexample: with the day tier limited to 1 under the rolling
strategy, a completion recorded at `t = 0` is still counted at
`now = t + T = 86400`, and the corresponding `check_all_limits` call for a
batch of 1 is denied on the day tier — the claim asserts the record is
invisible at every `now ≥ t + T`. -/
theorem rollingWindow_boundary_counterexample :
    (86400 : Int) = 0 + (periodSeconds .day : Int) ∧
    usageRollingDatabase [0] .day 86400 = 1 ∧
    checkAllLimitsRolling true
      (fun p => if p = .day then 1 else 0) 0 0 [0] 86400 1 = .denied .day := by
  refine ⟨by norm_num [periodSeconds], by decide, by decide⟩

/-- C1 counterexample: a batch with one task whose processing fails is
credited to the rate limiter as 1 completion even though no `TaskResult` has
status `succeeded` — a failed result does consume rate-limit budget. -/
theorem scheduler_credit_counterexample :
    (runTickBatch [failingWorker]).1 = 1 ∧
    succeededResultCount (runTickBatch [failingWorker]).2 = 0 := by
  constructor <;> rfl

/-- C1 (amended): after all launched workers return, the scheduler credits
the rate limiter with the number of workers whose coroutine completed
without raising; since every worker failure path is caught and reported as a
failed `TaskResult`, this equals the number of launched workers, regardless
of how many task results are `succeeded`. -/
theorem runTickBatch_credits_returned_workers (workers : List WorkerRun) :
    (runTickBatch workers).1 = workers.length := by
  have hfst : ∀ w : WorkerRun, (processSingleTask w).1 = Except.ok () := fun _ => rfl
  induction workers with
  | nil => rfl
  | cons w ws ih =>
    simp [runTickBatch, successfulCount, List.countP_cons, hfst]

/-- C3 failing input: a request whose response status is 500, with the
default `max_retries = 3`.  The raised `RetryableError` matches neither
decorator tuple, so the error surfaces after exactly one attempt — the 5xx
is never retried, contrary to the claim that up to `max_retries` retries are
made. -/
theorem http5xx_surfaces_on_first_attempt :
    makeRequestRetries (fun _ => 500) 3 = (.error .retryableError, 1) ∧
    PyExn.retryableError ∉ retryableTuple ∧
    PyExn.retryableError ∉ nonRetryableTuple := by
  refine ⟨?_, by decide, by decide⟩
  rw [makeRequestRetries, exponentialBackoffRetry, backoffRetryFrom]
  simp [requestAttemptOutcome, retryableTuple, nonRetryableTuple]

lemma cbInv_recordFailure (cb : CircuitBreaker) (now : Int)
    (h : cb.state ≠ .closed → cb.failureThreshold ≤ cb.failureCount) :
    CBInv (cb.recordFailure now) := by
  intro hst
  refine ⟨?_, now, rfl⟩
  simp only [CircuitBreaker.recordFailure] at hst ⊢
  by_cases hth : cb.failureThreshold ≤ cb.failureCount + 1
  · exact hth
  · simp only [if_neg hth] at hst
    have := h hst
    omega

lemma cbInv_of_reachable (cb : CircuitBreaker) (h : CBReachable cb) : CBInv cb := by
  induction h with
  | init threshold timeout =>
    intro hst
    exact absurd rfl hst
  | step cb now upstreamOk _ ih =>
    rw [CircuitBreaker.call]
    by_cases hop : cb.state = .opened
    · rw [if_pos hop]
      by_cases htime : cb.recoveryTimeout < now - (cb.lastFailureTime.getD 0)
      · rw [if_pos htime]
        by_cases hup : upstreamOk
        · simp only [if_pos hup]
          intro hst
          exact absurd rfl hst
        · simp only [if_neg hup]
          apply cbInv_recordFailure
          intro _
          have hnc : cb.state ≠ CBState.closed := by
            rw [hop]; exact fun hc => by cases hc
          exact (ih hnc).1
      · rw [if_neg htime]
        exact ih
    · rw [if_neg hop]
      by_cases hup : upstreamOk
      · simp only [if_pos hup]
        by_cases hhalf : cb.state = .halfOpen
        · rw [if_pos hhalf]
          intro hst
          exact absurd rfl hst
        · rw [if_neg hhalf]
          exact ih
      · simp only [if_neg hup]
        apply cbInv_recordFailure
        intro hst
        exact (ih hst).1

/-- C4: the circuit breaker state machine.  For every reachable breaker and
call instant: (closed) a failure increments the count, the upstream is
reached, and the state flips to open exactly when the incremented count
reaches the threshold; (open, within `recovery_timeout` of the last
failure) the call fails with the fatal open-circuit error, the upstream is
not reached, and the breaker is unchanged; (open, after the timeout) the
permitted half-open trial reaches the upstream — success resets to closed
with zero failures, failure returns to open. -/
theorem circuitBreaker_state_machine (cb : CircuitBreaker) (h : CBReachable cb)
    (now : Int) (upstreamOk : Bool) :
    (cb.state = .closed → upstreamOk = false →
      ((cb.call now upstreamOk).breaker.failureCount = cb.failureCount + 1 ∧
       (cb.call now upstreamOk).reachedUpstream = true ∧
       ((cb.call now upstreamOk).breaker.state = .opened ↔
         cb.failureThreshold ≤ cb.failureCount + 1))) ∧
    (cb.state = .opened → now - (cb.lastFailureTime.getD 0) ≤ cb.recoveryTimeout →
      ((cb.call now upstreamOk).result = .circuitOpenFatal ∧
       (cb.call now upstreamOk).reachedUpstream = false ∧
       (cb.call now upstreamOk).breaker = cb)) ∧
    (cb.state = .opened → cb.recoveryTimeout < now - (cb.lastFailureTime.getD 0) →
      ((cb.call now upstreamOk).reachedUpstream = true ∧
       (upstreamOk = true →
         (cb.call now upstreamOk).breaker.state = .closed ∧
         (cb.call now upstreamOk).breaker.failureCount = 0) ∧
       (upstreamOk = false →
         (cb.call now upstreamOk).breaker.state = .opened))) := by
  refine ⟨?_, ?_, ?_⟩
  · intro hcl hup
    subst hup
    have hnotop : ¬ cb.state = CBState.opened := by
      rw [hcl]; exact fun hc => by cases hc
    rw [CircuitBreaker.call, if_neg hnotop, if_neg (by simp)]
    refine ⟨rfl, rfl, ?_⟩
    rcases le_or_lt cb.failureThreshold (cb.failureCount + 1) with hth | hth
    · simp [CircuitBreaker.recordFailure, hth]
    · have hth2 : ¬ cb.failureThreshold ≤ cb.failureCount + 1 := by omega
      simp [CircuitBreaker.recordFailure, hth2, hcl]
  · intro hop htime
    rw [CircuitBreaker.call, if_pos hop, if_neg (by omega)]
    exact ⟨rfl, rfl, rfl⟩
  · intro hop htime
    have hnc : cb.state ≠ CBState.closed := by
      rw [hop]; exact fun hc => by cases hc
    have hinv := cbInv_of_reachable cb h
    have hth : cb.failureThreshold ≤ cb.failureCount := (hinv hnc).1
    rw [CircuitBreaker.call, if_pos hop, if_pos htime]
    cases upstreamOk with
    | true =>
      exact ⟨rfl, fun _ => ⟨rfl, rfl⟩, fun hc => by simp at hc⟩
    | false =>
      refine ⟨rfl, fun hc => by simp at hc, fun _ => ?_⟩
      simp [CircuitBreaker.recordFailure,
        show cb.failureThreshold ≤ cb.failureCount + 1 from by omega]

/-- Witness for C4: a freshly constructed breaker with threshold 1 is
reachable and closed; one failing call at instant 0 reaches upstream,
records `failure_count = 1` and opens the circuit. -/
theorem circuitBreaker_state_machine_witness :
    ((CircuitBreaker.mkInit 1 60).call 0 false).breaker.failureCount = 1 ∧
    ((CircuitBreaker.mkInit 1 60).call 0 false).breaker.state = .opened := by
  have h := circuitBreaker_state_machine (CircuitBreaker.mkInit 1 60)
    (CBReachable.init 1 60) 0 false
  obtain ⟨hcount, _, hiff⟩ := h.1 rfl rfl
  exact ⟨hcount, hiff.mpr (by decide)⟩

/-- C5 failing input: in cloud mode with the placeholder API key, a
supported model and the text "hello world".  The mock result's embedding has
length 1536 — not the 1024 the claim states — and with an absent (empty)
key no mock is synthesized at all: the call forwards to the real API. -/
theorem mock_embedding_dimension_bug :
    openAICreateEmbedding placeholderApiKey "text-embedding-3-small"
      "hello world".toList = .mockResult 1536 2 2 ∧
    (1536 : Nat) ≠ 1024 ∧
    openAICreateEmbedding "" "text-embedding-3-small" "hello world".toList =
      .forwardToCloudApi := by
  refine ⟨by decide, by decide, by decide⟩

lemma listContainsSub_iff (needle hay : List Char) :
    listContainsSub needle hay = true ↔ needle <:+: hay := by
  induction hay with
  | nil =>
    simp [listContainsSub]
  | cons c rest ih =>
    simp only [listContainsSub, Bool.or_eq_true, ih,  List.isPrefixOf_iff_prefix,
       List.infix_cons_iff]

/-- A nonempty whitespace-free needle is an infix of `pre ++ m` with `pre`
all-whitespace iff it is an infix of `m` (left direction of the strip
argument). -/
lemma infix_dropWsLeft (sev m : List Char) (hne : sev ≠ [])
    (hsev : ∀ c ∈ sev, pyWhitespaceChar c = false) :
    ∀ pre : List Char, (∀ c ∈ pre, pyWhitespaceChar c = true) →
      sev <:+: pre ++ m → sev <:+: m
  | [], _, h => by simpa using h
  | w :: ws, hpre, h => by
    have hws : ∀ c ∈ ws, pyWhitespaceChar c = true :=
      fun c hc => hpre c (List.mem_cons_of_mem _ hc)
    have hw : pyWhitespaceChar w = true := hpre w (List.mem_cons_self w ws)
    rw [List.cons_append] at h
    rcases ( List.infix_cons_iff).mp h with hp | hi
    · rcases ( List.prefix_cons_iff).mp hp with rfl | ⟨t, rfl, _⟩
      · exact absurd rfl hne
      · have hcon := hsev w (List.mem_cons_self w t)
        rw [hw] at hcon
        cases hcon
    · exact infix_dropWsLeft sev m hne hsev ws hws hi

/-- Python `strip` splits a string into all-whitespace margins around its
stripped core. -/
lemma pyStrip_decomposition (t : List Char) :
    ∃ pre suf, t = pre ++ pyStrip t ++ suf ∧
      (∀ c ∈ pre, pyWhitespaceChar c = true) ∧
      (∀ c ∈ suf, pyWhitespaceChar c = true) := by
  refine ⟨t.takeWhile pyWhitespaceChar,
    ((t.dropWhile pyWhitespaceChar).reverse.takeWhile pyWhitespaceChar).reverse,
    ?_, ?_, ?_⟩
  · have hu : t.dropWhile pyWhitespaceChar =
        pyStrip t ++
          ((t.dropWhile pyWhitespaceChar).reverse.takeWhile pyWhitespaceChar).reverse := by
      rw [pyStrip]
      conv_lhs => rw [← List.reverse_reverse (t.dropWhile pyWhitespaceChar)]
      conv_lhs =>
        rw [← List.takeWhile_append_dropWhile pyWhitespaceChar
          (l := (t.dropWhile pyWhitespaceChar).reverse)]
      rw [List.reverse_append]
    calc t = t.takeWhile pyWhitespaceChar ++ t.dropWhile pyWhitespaceChar :=
          (List.takeWhile_append_dropWhile pyWhitespaceChar t).symm
      _ = t.takeWhile pyWhitespaceChar ++
            (pyStrip t ++
              ((t.dropWhile pyWhitespaceChar).reverse.takeWhile pyWhitespaceChar).reverse) := by
          rw [← hu]
      _ = _ := by rw [List.append_assoc]
  · intro c hc
    exact List.mem_takeWhile_imp hc
  · intro c hc
    rw [List.mem_reverse] at hc
    exact List.mem_takeWhile_imp hc

lemma toLower_of_ws (c : Char) (h : pyWhitespaceChar c = true) :
    Char.toLower c = c := by
  simp only [pyWhitespaceChar, Bool.or_eq_true, decide_eq_true_eq] at h
  rcases h with ⟨⟨⟨⟨rfl | rfl⟩ | rfl⟩ | rfl⟩ | rfl⟩ | rfl <;> decide

lemma map_toLower_of_ws (l : List Char) (h : ∀ c ∈ l, pyWhitespaceChar c = true) :
    l.map Char.toLower = l := by
  induction l with
  | nil => rfl
  | cons c rest ih =>
    rw [List.map_cons, toLower_of_ws c (h c (List.mem_cons_self c rest)),
      ih (fun d hd => h d (List.mem_cons_of_mem _ hd))]

/-- Stripping before lower-casing does not change which whitespace-free
nonempty needles occur as substrings. -/
lemma containsSub_strip_lower_eq (sev : List Char) (hne : sev ≠ [])
    (hsev : ∀ c ∈ sev, pyWhitespaceChar c = false) (t : List Char) :
    listContainsSub sev (pyLower (pyStrip t)) = listContainsSub sev (pyLower t) := by
  obtain ⟨pre, suf, hdec, hpre, hsuf⟩ := pyStrip_decomposition t
  have hlow : pyLower t = pre ++ pyLower (pyStrip t) ++ suf := by
    conv_lhs => rw [pyLower, hdec]
    rw [List.map_append, List.map_append, map_toLower_of_ws pre hpre,
      map_toLower_of_ws suf hsuf]
    rfl
  have hiff : sev <:+: pyLower (pyStrip t) ↔ sev <:+: pyLower t := by
    rw [hlow]
    constructor
    · intro h
      obtain ⟨s, u, hm⟩ := h
      exact ⟨pre ++ s, u ++ suf, by rw [← hm]; simp [List.append_assoc]⟩
    · intro h
      rw [List.append_assoc] at h
      have h1 : sev <:+: pyLower (pyStrip t) ++ suf :=
        infix_dropWsLeft sev _ hne hsev pre hpre h
      have h2 : sev.reverse <:+: (pyLower (pyStrip t) ++ suf).reverse :=
        ( List.reverse_infix).mpr h1
      rw [List.reverse_append] at h2
      have hsevrev : ∀ c ∈ sev.reverse, pyWhitespaceChar c = false := by
        intro c hc
        rw [List.mem_reverse] at hc
        exact hsev c hc
      have hsufrev : ∀ c ∈ suf.reverse, pyWhitespaceChar c = true := by
        intro c hc
        rw [List.mem_reverse] at hc
        exact hsuf c hc
      have hnerev : sev.reverse ≠ [] := by
        intro hc
        exact hne (by simpa using hc)
      have h3 : sev.reverse <:+: (pyLower (pyStrip t)).reverse :=
        infix_dropWsLeft sev.reverse _ hnerev hsevrev suf.reverse hsufrev h2
      exact ( List.reverse_infix).mp h3
  have e1 := listContainsSub_iff sev (pyLower (pyStrip t))
  have e2 := listContainsSub_iff sev (pyLower t)
  by_cases hb : sev <:+: pyLower (pyStrip t)
  · rw [e1.mpr hb, e2.mpr (hiff.mp hb)]
  · have hb1 : listContainsSub sev (pyLower (pyStrip t)) = false := by
      rw [← Bool.not_eq_true, e1]
      exact hb
    have hb2 : listContainsSub sev (pyLower t) = false := by
      rw [← Bool.not_eq_true, e2]
      exact fun hc => hb (hiff.mpr hc)
    rw [hb1, hb2]

lemma classifySeverityScan_eq_findD (t : List Char) (l : List String) :
    classifySeverityScan t l =
      (l.find? (fun sev => listContainsSub sev.toList t)).getD "medium_2" := by
  induction l with
  | nil => rfl
  | cons sev rest ih =>
    by_cases hb : listContainsSub sev.toList t = true
    · have hfind : List.find? (fun s => listContainsSub s.toList t) (sev :: rest) =
          some sev := List.find?_cons_of_pos rest hb
      rw [classifySeverityScan, if_pos hb, hfind, Option.getD_some]
    · have hfind : List.find? (fun s => listContainsSub s.toList t) (sev :: rest) =
          List.find? (fun s => listContainsSub s.toList t) rest :=
        List.find?_cons_of_neg rest hb
      rw [classifySeverityScan, if_neg hb, hfind, ih]

lemma find?_congrOn (l : List α) (p q : α → Bool) (h : ∀ x ∈ l, p x = q x) :
    l.find? p = l.find? q := by
  induction l with
  | nil => rfl
  | cons a rest ih =>
    have ha := h a (List.mem_cons_self a rest)
    by_cases hp : p a = true
    · rw [List.find?_cons_of_pos _ hp, List.find?_cons_of_pos _ (ha ▸ hp)]
    · rw [List.find?_cons_of_neg _ hp,
        List.find?_cons_of_neg _ (by rw [← ha]; exact hp),
        ih (fun x hx => h x (List.mem_cons_of_mem _ hx))]

/-- C8: severity classification always lands in the closed severity set,
and equals the first member of `valid_severities`, in scan order, that
occurs as a substring of the lower-cased response text, with `"medium_2"`
when no member occurs. -/
theorem classifySeverity_spec (text : List Char) :
    classifySeverity text ∈ validSeverities ∧
    classifySeverity text =
      (validSeverities.find?
        (fun sev => listContainsSub sev.toList (pyLower text))).getD "medium_2" := by
  have hcong :
      validSeverities.find?
          (fun sev => listContainsSub sev.toList (pyLower (pyStrip text))) =
        validSeverities.find?
          (fun sev => listContainsSub sev.toList (pyLower text)) := by
    apply find?_congrOn
    intro sev hsev
    fin_cases hsev <;>
      exact containsSub_strip_lower_eq _ (by decide) (by decide) text
  constructor
  · rw [classifySeverity, classifySeverityScan_eq_findD]
    cases hf : validSeverities.find?
        (fun sev => listContainsSub sev.toList (pyLower (pyStrip text))) with
    | none =>
      rw [Option.getD_none]
      decide
    | some x =>
      rw [Option.getD_some]
      exact List.mem_of_find?_eq_some hf
  · rw [classifySeverity, classifySeverityScan_eq_findD, hcong]

/-- C9 failing input: register two distinct callbacks in either order.  The
coordinator's state after `add(a); add(b)` is identical to the state after
`add(b); add(a)`, so no iteration function over the stored set — in
particular not the `for callback in self._cleanup_callbacks` loop of
`shutdown` — can invoke callbacks in registration order for both
registration histories. -/
theorem cleanup_order_not_recoverable :
    addCleanupCallback (addCleanupCallback initialShutdownState 0) 1 =
      addCleanupCallback (addCleanupCallback initialShutdownState 1) 0 ∧
    ([0, 1] : List Nat) ≠ [1, 0] ∧
    ∀ invokeOrder : Finset Nat → List Nat,
      ¬ ∀ a b : Nat,
        invokeOrder
            (addCleanupCallback (addCleanupCallback initialShutdownState a) b).cleanupCallbacks =
          [a, b] := by
  have hins : insert (1 : Nat) (insert 0 (∅ : Finset Nat)) = insert 0 (insert 1 ∅) := by
    ext x
    simp
    tauto
  refine ⟨congrArg ShutdownState.mk hins, by decide, ?_⟩
  intro invokeOrder h
  have h01 := h 0 1
  have h10 := h 1 0
  have hstate :
      (addCleanupCallback (addCleanupCallback initialShutdownState 0) 1).cleanupCallbacks =
        (addCleanupCallback (addCleanupCallback initialShutdownState 1) 0).cleanupCallbacks :=
    hins
  rw [hstate, h10] at h01
  cases h01

lemma alistGet_eq_none (m : List (String × β)) (k : String)
    (h : ∀ kv ∈ m, kv.1 ≠ k) : alistGet m k = none := by
  induction m with
  | nil => rfl
  | cons kv rest ih =>
    rw [alistGet, if_neg (h kv (List.mem_cons_self kv rest))]
    exact ih (fun kv2 hkv2 => h kv2 (List.mem_cons_of_mem _ hkv2))

/-- C10: called with more than 50 ids, `get_entities_batch` does not fail:
it behaves exactly as if called on the first 50 ids, every returned entry is
keyed by one of the first 50 ids, and ids beyond the first 50 have no entry
in the returned map. -/
theorem getEntitiesBatch_truncates (fetched : String → Option WdEntity)
    (ids : List String) (_h : 50 < ids.length) :
    getEntitiesBatch fetched ids = getEntitiesBatch fetched (ids.take 50) ∧
    (∀ kv ∈ getEntitiesBatch fetched ids, kv.1 ∈ ids.take 50) ∧
    (∀ i, i ∉ ids.take 50 → alistGet (getEntitiesBatch fetched ids) i = none) := by
  have hmem : ∀ kv ∈ getEntitiesBatch fetched ids, kv.1 ∈ ids.take 50 := by
    intro kv hkv
    rw [getEntitiesBatch] at hkv
    obtain ⟨a, ha, hfa⟩ := List.mem_filterMap.mp hkv
    cases hopt : fetched a with
    | none => rw [hopt, Option.map_none'] at hfa; cases hfa
    | some e =>
      rw [hopt, Option.map_some'] at hfa
      cases hfa
      exact ha
  refine ⟨?_, hmem, ?_⟩
  · simp [getEntitiesBatch, List.take_take]
  · intro i hi
    exact alistGet_eq_none _ _ (fun kv hkv heq => hi (heq ▸ hmem kv hkv))

/-- Witness for C10: 51 copies of "a" exceed the batch limit; the id "b" is
outside the first 50 ids and gets no entry. -/
theorem getEntitiesBatch_truncates_witness :
    50 < (List.replicate 51 "a").length ∧
    alistGet (getEntitiesBatch (fun _ => none) (List.replicate 51 "a")) "b" = none := by
  have h := getEntitiesBatch_truncates (fun _ => none) (List.replicate 51 "a")
    (by simp)
  refine ⟨by simp, h.2.2 "b" ?_⟩
  intro hb
  rw [List.take_replicate] at hb
  exact absurd (List.eq_of_mem_replicate hb) (by decide)

lemma chunksOf50_flatten : ∀ l : List String, (chunksOf50 l).flatten = l
  | [] => by simp [chunksOf50]
  | x :: xs => by
    have hstep : chunksOf50 (x :: xs) =
        ((x :: xs).take 50) :: chunksOf50 ((x :: xs).drop 50) := by
      simp only [chunksOf50]
    rw [hstep, List.flatten_cons, chunksOf50_flatten ((x :: xs).drop 50),
      List.take_append_drop]
termination_by l => l.length
decreasing_by simp [List.length_drop]; omega

lemma chunksOf50_length_eq : ∀ l : List String,
    (chunksOf50 l).length = (l.length + 49) / 50
  | [] => by simp [chunksOf50]
  | x :: xs => by
    have hstep : chunksOf50 (x :: xs) =
        ((x :: xs).take 50) :: chunksOf50 ((x :: xs).drop 50) := by
      simp only [chunksOf50]
    rw [hstep, List.length_cons, chunksOf50_length_eq ((x :: xs).drop 50),
      List.length_drop]
    have h1 : 0 < (x :: xs).length := by simp
    omega
termination_by l => l.length
decreasing_by simp [List.length_drop]; omega

lemma chunksOf50_mem_le : ∀ (l b : List String), b ∈ chunksOf50 l → b.length ≤ 50
  | [], b, hb => by simp [chunksOf50] at hb
  | x :: xs, b, hb => by
    have hstep : chunksOf50 (x :: xs) =
        ((x :: xs).take 50) :: chunksOf50 ((x :: xs).drop 50) := by
      simp only [chunksOf50]
    rw [hstep] at hb
    rcases List.mem_cons.mp hb with rfl | hb2
    · exact List.length_take_le 50 (x :: xs)
    · exact chunksOf50_mem_le ((x :: xs).drop 50) b hb2
termination_by l => l.length
decreasing_by simp [List.length_drop]; omega

lemma foldl_append_batches (g : List String → List (String × WdEntity)) :
    ∀ (L : List (List String)) (init : List (String × WdEntity)),
      L.foldl (fun acc b => acc ++ g b) init = init ++ (L.map g).flatten
  | [], init => by simp
  | b :: bs, init => by
    rw [List.foldl_cons, foldl_append_batches g bs (init ++ g b), List.map_cons,
      List.flatten_cons, List.append_assoc]

lemma flatten_map_filterMap (f : String → Option (String × WdEntity)) :
    ∀ L : List (List String),
      (L.map (fun b => b.filterMap f)).flatten = L.flatten.filterMap f
  | [] => rfl
  | b :: bs => by
    rw [List.map_cons, List.flatten_cons, List.flatten_cons, List.filterMap_append,
      flatten_map_filterMap f bs]

/-- The merged dict equals one filterMap over the deduplicated id pool. -/
lemma fetchedEntitiesData_eq (fetched : String → Option WdEntity)
    (searches : List (Except Unit (List WdSearchHit))) :
    fetchedEntitiesData fetched searches =
      (uniqueEntityIds searches).filterMap
        (fun i => (fetched i).map (fun e => (i, e))) := by
  rw [fetchedEntitiesData,
    foldl_append_batches (getEntitiesBatch fetched) (chunksOf50 (uniqueEntityIds searches)) [],
    List.nil_append]
  have hmap : (chunksOf50 (uniqueEntityIds searches)).map (getEntitiesBatch fetched) =
      (chunksOf50 (uniqueEntityIds searches)).map
        (fun b => b.filterMap (fun i => (fetched i).map (fun e => (i, e)))) := by
    apply List.map_congr_left
    intro b hb
    rw [getEntitiesBatch, List.take_of_length_le (chunksOf50_mem_le _ b hb)]
  rw [hmap, flatten_map_filterMap, chunksOf50_flatten]

lemma mem_filterMap_fetched (fetched : String → Option WdEntity) (l : List String)
    (kv : String × WdEntity)
    (hkv : kv ∈ l.filterMap (fun j => (fetched j).map (fun e => (j, e)))) :
    kv.1 ∈ l ∧ fetched kv.1 = some kv.2 := by
  obtain ⟨a, ha, hfa⟩ := List.mem_filterMap.mp hkv
  cases hopt : fetched a with
  | none => rw [hopt, Option.map_none'] at hfa; cases hfa
  | some e =>
    rw [hopt, Option.map_some'] at hfa
    cases hfa
    exact ⟨ha, hopt⟩

/-- Looking an id up in the merged dict gives exactly what the upstream
returned for it, for every id of the duplicate-free pool. -/
lemma alistGet_filterMap_fetched (fetched : String → Option WdEntity) :
    ∀ l : List String, l.Nodup → ∀ i ∈ l,
      alistGet (l.filterMap (fun j => (fetched j).map (fun e => (j, e)))) i = fetched i
  | [], _, i, hi => by cases hi
  | a :: rest, hnd, i, hi => by
    have hna : a ∉ rest := (List.nodup_cons.mp hnd).1
    have hnd1 : rest.Nodup := (List.nodup_cons.mp hnd).2
    cases hopt : fetched a with
    | none =>
      have hcons : List.filterMap (fun j => Option.map (fun e => (j, e)) (fetched j))
          (a :: rest) =
            List.filterMap (fun j => Option.map (fun e => (j, e)) (fetched j)) rest := by
        rw [List.filterMap_cons, hopt, Option.map_none']
      rw [hcons]
      rcases List.mem_cons.mp hi with rfl | hi2
      · rw [hopt]
        apply alistGet_eq_none
        intro kv hkv heq
        exact hna (heq ▸ (mem_filterMap_fetched fetched rest kv hkv).1)
      · exact alistGet_filterMap_fetched fetched rest hnd1 i hi2
    | some e =>
      have hcons : List.filterMap (fun j => Option.map (fun e => (j, e)) (fetched j))
          (a :: rest) =
            (a, e) ::
              List.filterMap (fun j => Option.map (fun e => (j, e)) (fetched j)) rest := by
        rw [List.filterMap_cons, hopt, Option.map_some']
      rw [hcons]
      rcases List.mem_cons.mp hi with rfl | hi2
      · rw [alistGet, if_pos rfl, hopt]
      · rw [alistGet]
        by_cases hai : a = i
        · exact absurd (hai ▸ hi2) hna
        · rw [if_neg hai]
          exact alistGet_filterMap_fetched fetched rest hnd1 i hi2

lemma selectFirstAllowed_congr (ents1 ents2 : String → Option WdEntity)
    (nm lang : String) :
    ∀ ids : List String, (∀ i ∈ ids, ents1 i = ents2 i) →
      selectFirstAllowed ents1 nm lang ids = selectFirstAllowed ents2 nm lang ids
  | [], _ => rfl
  | eid :: rest, h => by
    have he := h eid (List.mem_cons_self eid rest)
    have hrest := fun i hi => h i (List.mem_cons_of_mem eid hi)
    simp only [selectFirstAllowed]
    rw [he]
    cases ents2 eid with
    | none =>
      dsimp only
      exact selectFirstAllowed_congr ents1 ents2 nm lang rest hrest
    | some e =>
      dsimp only
      by_cases hall : hasAllowedInstanceType e = true
      · simp only [if_pos hall]
      · simp only [if_neg hall]
        exact selectFirstAllowed_congr ents1 ents2 nm lang rest hrest

lemma mem_uniqueEntityIds (searchF : Nat → Except Unit (List WdSearchHit))
    (n i : Nat) (eid : String) (hi : i < n)
    (hmem : eid ∈ searchEntityIds (searchF i)) :
    eid ∈ uniqueEntityIds ((List.range n).map searchF) := by
  rw [uniqueEntityIds, List.mem_dedup]
  exact List.mem_flatten_of_mem
    (List.mem_map_of_mem searchEntityIds
      (List.mem_map_of_mem searchF (List.mem_range.mpr hi))) hmem

/-- The id selected per personality is the first candidate, in search order,
whose fetched entity passes the instance-type filter. -/
lemma selectFirstAllowed_map_id (ents : String → Option WdEntity) (nm lang : String) :
    ∀ ids : List String,
      (selectFirstAllowed ents nm lang ids).map (fun m => m.id) =
        ids.find? (fun eid => ((ents eid).map hasAllowedInstanceType).getD false)
  | [] => rfl
  | eid :: rest => by
    simp only [selectFirstAllowed]
    cases hopt : ents eid with
    | none =>
      dsimp only
      have hfind : List.find?
          (fun eid2 => ((ents eid2).map hasAllowedInstanceType).getD false)
          (eid :: rest) =
            List.find?
              (fun eid2 => ((ents eid2).map hasAllowedInstanceType).getD false) rest :=
        List.find?_cons_of_neg rest (by rw [hopt]; simp)
      rw [hfind]
      exact selectFirstAllowed_map_id ents nm lang rest
    | some e =>
      dsimp only
      by_cases hall : hasAllowedInstanceType e = true
      · rw [if_pos hall]
        have hfind : List.find?
            (fun eid2 => ((ents eid2).map hasAllowedInstanceType).getD false)
            (eid :: rest) = some eid :=
          List.find?_cons_of_pos rest (by rw [hopt]; simpa using hall)
        rw [hfind]
        rfl
      · rw [if_neg hall]
        have hfind : List.find?
            (fun eid2 => ((ents eid2).map hasAllowedInstanceType).getD false)
            (eid :: rest) =
              List.find?
                (fun eid2 => ((ents eid2).map hasAllowedInstanceType).getD false) rest :=
          List.find?_cons_of_neg rest (by rw [hopt]; simpa using hall)
        rw [hfind]
        exact selectFirstAllowed_map_id ents nm lang rest

/-- C6 (amended): for `M` personality mentions the pipeline launches `M`
search tasks and `ceil(|S|/50)` batch-fetch calls over the pooled unique
candidate ids `S`; the result has one entry per mention, in input order,
annotating each mention with its first candidate, in search-result order,
whose fetched entity passes the in-memory P31 filter (which examines only
the entity's first five P31 claims); a mention with no such candidate —
including one whose search failed — carries a null annotation, and the batch
never fails. -/
theorem batchEnrich_spec (fetched : String → Option WdEntity)
    (searchF : Nat → Except Unit (List WdSearchHit)) (ps : List PersonalityIn)
    (lang : String) :
    (batchEnrichPersonalities fetched searchF ps lang).map Prod.fst = ps ∧
    (batchEnrichPersonalities fetched searchF ps lang).length = ps.length ∧
    ((List.range ps.length).map searchF).length = ps.length ∧
    batchEnrichFetchCallCount searchF ps =
      ((uniqueEntityIds ((List.range ps.length).map searchF)).length + 49) / 50 ∧
    batchEnrichPersonalities fetched searchF ps lang =
      ((List.range ps.length).zip ps).map (fun ip =>
        (ip.2, selectFirstAllowed fetched ip.2.name lang
          (searchEntityIds (searchF ip.1)))) ∧
    ∀ nm ids,
      (selectFirstAllowed fetched nm lang ids).map (fun m => m.id) =
        ids.find? (fun eid => ((fetched eid).map hasAllowedInstanceType).getD false) := by
  have hmain : batchEnrichPersonalities fetched searchF ps lang =
      ((List.range ps.length).zip ps).map (fun ip =>
        (ip.2, selectFirstAllowed fetched ip.2.name lang
          (searchEntityIds (searchF ip.1)))) := by
    rw [batchEnrichPersonalities]
    apply List.map_congr_left
    rintro ⟨i, p⟩ hip
    have hi : i < ps.length := List.mem_range.mp (List.of_mem_zip hip).1
    dsimp only
    congr 1
    apply selectFirstAllowed_congr
    intro eid heid
    rw [fetchedEntitiesData_eq]
    exact alistGet_filterMap_fetched fetched _ (List.nodup_dedup _) eid
      (mem_uniqueEntityIds searchF ps.length i eid hi heid)
  refine ⟨?_, ?_, by simp, ?_, hmain, fun nm ids => selectFirstAllowed_map_id fetched nm lang ids⟩
  · rw [hmain, List.map_map]
    exact List.map_snd_zip (List.range ps.length) ps (by simp)
  · rw [hmain, List.length_map, List.length_zip]
    simp
  · rw [batchEnrichFetchCallCount, chunksOf50_length_eq]

/-- C6 counterexample: one mention whose sole candidate Q1 has its allowed
P31 value (Q5) in the sixth P31 claim.  The claim's selection rule — first
candidate whose P31 instance-of value lies in the allowed set — picks Q1,
but the code annotates the mention with null because `_extract_item_ids`
examines only the first five P31 claims. -/
theorem batchEnrich_p31_truncation_counterexample :
    (batchEnrichPersonalities c6Fetched c6SearchF [{ name := "Alice" }] "en").map
        (fun pe => pe.2.map (fun m => m.id)) = [none] ∧
    hasAllowedInstanceTypeSpec c6Entity = true ∧
    hasAllowedInstanceType c6Entity = false ∧
    (searchEntityIds (c6SearchF 0)).find?
        (fun eid => ((c6Fetched eid).map hasAllowedInstanceTypeSpec).getD false) =
      some "Q1" := by
  refine ⟨?_, by decide, by decide, by decide⟩
  have h1 : uniqueEntityIds
      ((List.range ([{ name := "Alice" }] : List PersonalityIn).length).map c6SearchF) =
        ["Q1"] := by decide
  have h2 : chunksOf50 ["Q1"] = [["Q1"]] := by
    simp [chunksOf50]
  have h3 : fetchedEntitiesData c6Fetched
      ((List.range ([{ name := "Alice" }] : List PersonalityIn).length).map c6SearchF) =
        [("Q1", c6Entity)] := by
    rw [fetchedEntitiesData, h1, h2]
    decide
  simp only [batchEnrichPersonalities]
  rw [h3]
  decide

end ATP
